import Mathlib

/-!
Verification development for `balloon_cd.py` ("CD Ballooner"), a
command-construction and process-orchestration script.  The script is
embedded shallowly: pure string manipulation is translated directly,
filesystem queries (`os.path.exists`, `os.path.isfile`, `os.path.abspath`)
and external-subprocess outcomes become oracle functions collected in a
`Cfg` record, and every side effect (log line, subprocess invocation,
copy, rename, staging-directory creation/removal) is recorded as an
`Event` in a trace.  A computation yields a `RunResult`: the trace of
events it performed together with `none` (normal return) or `some msg`
(a raised exception), with sequencing that short-circuits on the first
raised exception, exactly as straight-line Python does.
-/

namespace BalloonCd

/-- Splits a character sequence at every space. -/
def splitOnSpace : List Char → List (List Char)
  | [] => [[]]
  | c :: rest =>
    match splitOnSpace rest with
    | [] => if c = ' ' then [[], []] else [[c]]
    | h :: t => if c = ' ' then [] :: h :: t else (c :: h) :: t

/-- Models `shlex.split` for the whitespace-separated command strings used by
the script (none of the configured commands contain quoting or repeated
blanks, so `shlex.split` coincides with splitting on single spaces). -/
def shlexSplit (s : String) : List String :=
  (splitOnSpace s.data).map fun l => ⟨l⟩

/-- Models POSIX `os.path.basename`: the characters after the last `/`. -/
def basename (p : String) : String :=
  ⟨p.data.foldl (fun acc c => if c = '/' then [] else acc ++ [c]) []⟩

/-- Models POSIX `os.path.join` for two components: an absolute second
component wins; otherwise the parts are joined, inserting a `/` unless the
first part is empty or already ends in `/`. -/
def joinPath (a b : String) : String :=
  if b.data.head? = some '/' then b
  else if a = "" then b
  else if a.data.getLast? = some '/' then a ++ b
  else a ++ "/" ++ b

/-- Models Python `str.endswith`: suffix test on the character sequences. -/
def endsStr (s pat : String) : Bool := decide (pat.data <:+ s.data)

/-- Models the Python slice `s[:32]` used for the derived volume id
(slicing by code points, as Python does). -/
def pySlice32 (s : String) : String := ⟨s.data.take 32⟩

/-- Code-point lexicographic `≤` on character sequences — the order Python
uses to compare strings. -/
def lexLe : List Char → List Char → Bool
  | [], _ => true
  | _ :: _, [] => false
  | a :: as, b :: bs => if a < b then true else if a = b then lexLe as bs else false

/-- Models Python `sorted` on strings.  `sorted` is a stable ascending sort
and code-point order is total, so its output is the unique stable sorted
permutation; insertion sort computes exactly that. -/
def sortStrings (l : List String) : List String :=
  l.insertionSort fun a b => lexLe a.data b.data = true

/-- The `ARCHIVERS` table: (extension, command) pairs in priority order. -/
def ARCHIVERS : List (String × String) :=
  [(".zip", "zip -rT"),
   (".tar", "tar cf"),
   (".7z", "7z a -y"),
   (".rar", "rar a -r -rr -t -y"),
   (".lzh", "jlha a"),
   (".arj", "arj a -r -hk -y"),
   (".zoo", "zoo ah")]

/-- The `COMPRESSORS` table: (extension, command) pairs in priority order. -/
def COMPRESSORS : List (String × String) :=
  [(".gz", "gzip -k"),
   (".bz2", "bzip2 -k"),
   (".lz", "lzip -k"),
   (".lzma", "lzma -k"),
   (".xz", "xz -k")]

/-- The `EXTENSION_COMPRESSION` table (the Extension-Rename Table), in the
dict's insertion order. -/
def EXTENSION_COMPRESSION : List (String × String) :=
  [(".tar.bz2", ".tbz2"),
   (".tar.gz", ".tgz"),
   (".tar.lz", ".tlz"),
   (".tar.xz", ".txz")]

/-- The fixed `GENISOFS_OPTS` flag list passed to `genisoimage`. -/
def GENISOFS_OPTS : List String :=
  ["-appid", "CD Ballooner",
   "-sysid", "LINUX",
   "-quiet",
   "-no-cache-inodes",
   "-udf",
   "-iso-level", "1",
   "-joliet",
   "-rational-rock",
   "-translation-table",
   "-hide-joliet-trans-tbl"]

/-- Models Python `str.replace` for a single-character needle: every
occurrence of `n` is replaced by `r`. -/
def replaceC : List Char → Char → List Char → List Char
  | [], _, _ => []
  | c :: rest, n, r => (if c = n then r else [c]) ++ replaceC rest n r

/-- The character sequence produced by `escape_graft`, on `List Char`:
`path.replace('\\', '\\\\').replace('=', '\\=')`. -/
def escGraftL (l : List Char) : List Char :=
  replaceC (replaceC l '\\' ['\\', '\\']) '=' ['\\', '=']

/-- Models `escape_graft(path)`: doubles backslashes, then backslash-escapes
equals signs (two sequential `str.replace` calls, as in the source). -/
def escape_graft (s : String) : String := ⟨escGraftL s.data⟩

/-- The per-character escaping map that `escape_graft` implements. -/
def escChar (c : Char) : List Char :=
  if c = '\\' then ['\\', '\\'] else if c = '=' then ['\\', '='] else [c]

/-- Splitter for a graft-point specification: finds the first unescaped `=`
(a backslash escapes the character after it) and returns the parts before
and after it. -/
def splitEsc : List Char → Option (List Char × List Char)
  | [] => none
  | c :: rest =>
    if c = '=' then some ([], rest)
    else if c = '\\' then
      match rest with
      | [] => none
      | d :: rest2 => (splitEsc rest2).map fun p => (c :: d :: p.1, p.2)
    else (splitEsc rest).map fun p => (c :: p.1, p.2)

/-- Undoes the graft-point escaping: a backslash makes the following
character literal. -/
def unescapeL : List Char → List Char
  | [] => []
  | c :: rest =>
    if c = '\\' then
      match rest with
      | [] => [c]
      | d :: rest2 => d :: unescapeL rest2
    else c :: unescapeL rest

/-- One observable side effect of the script. -/
inductive Event where
  | copyEv (src dest : String)
  | logInfo (msg : String)
  | logWarn (msg : String)
  | logDebug (msg : String)
  | call (argv : List String) (cwd : Option String)
  | renameEv (src dest : String)
  | parchiveEv (path : String)
  | mkdtempEv (path : String)
  | rmtreeEv (path : String)
deriving DecidableEq

/-- Whether an event is a `log.warning` line. -/
def Event.isLogWarn : Event → Bool
  | .logWarn _ => true
  | _ => false

/-- Environment oracles: filesystem queries and the outcomes of the opaque
external collaborators.  `ex`/`isf` answer `os.path.exists`/`os.path.isfile`,
`abs` is `os.path.abspath`, `callFail` says whether a given
`subprocess.check_call` raises `CalledProcessError`, `parFail` whether a
`parchive` invocation raises, and `cores` is `multiprocessing.cpu_count()`. -/
structure Cfg where
  ex : String → Bool
  isf : String → Bool
  abs : String → String
  callFail : List String → Option String → Bool
  parFail : String → Bool
  cores : Nat

/-- Result of running a piece of the script: the events performed, and
`none` for normal completion or `some msg` for a propagating exception. -/
abbrev RunResult := List Event × Option String

/-- Sequencing: the second computation runs only if the first did not
raise, as in straight-line Python. -/
def runSeq (a b : RunResult) : RunResult :=
  match a with
  | (t, some e) => (t, some e)
  | (t, none) => (t ++ b.1, b.2)

/-- Models `subprocess.check_call(argv, cwd)`: the subprocess is spawned,
then a nonzero exit (per the `callFail` oracle) raises. -/
def callRun (cfg : Cfg) (argv : List String) (cwd : Option String) : RunResult :=
  ([Event.call argv cwd], if cfg.callFail argv cwd then some "CalledProcessError" else none)

/-- The archiver loop of `process` (lines 133-142).  Note that in the
source the `subprocess.check_call` is outside the `if/else`, so the
archiver is invoked whether or not the archive already exists; only the
log message differs. -/
def archiveLoop (cfg : Cfg) (inpath outpath outdir : String) :
    List (String × String) → RunResult
  | [] => ([], none)
  | (ext, archiver) :: rest =>
    let archive_path := outpath ++ ext
    let msg := if cfg.ex archive_path
      then Event.logInfo ("Skipping. Already exists: " ++ archive_path)
      else Event.logInfo ("Archiving " ++ inpath ++ " -> " ++ archive_path)
    runSeq ([msg], none)
      (runSeq (callRun cfg (shlexSplit archiver ++ [archive_path, basename inpath]) (some outdir))
        (archiveLoop cfg inpath outpath outdir rest))

/-- The compressor loop of `process` (lines 144-153): per compressor, the
copied input is compressed when it is a plain file, and the `.tar`
artifact is compressed on every iteration. -/
def compressLoop (cfg : Cfg) (inpath outname outpath outdir : String) :
    List (String × String) → RunResult
  | [] => ([], none)
  | (_, compressor) :: rest =>
    let part1 : RunResult :=
      if cfg.isf outpath then
        runSeq ([Event.logInfo ("Compressing " ++ inpath ++ " with " ++ compressor)], none)
          (callRun cfg (shlexSplit compressor ++ [outpath]) (some outdir))
      else ([], none)
    let out_tar := outname ++ ".tar"
    let part2 :=
      runSeq ([Event.logInfo ("Compressing " ++ out_tar ++ " with " ++ compressor)], none)
        (callRun cfg (shlexSplit compressor ++ [out_tar]) (some outdir))
    runSeq part1 (runSeq part2 (compressLoop cfg inpath outname outpath outdir rest))

/-- The extension-rename loop of `process` (lines 155-158): `os.rename`
is called unconditionally; renaming a nonexistent source raises
`FileNotFoundError`. -/
def renameLoop (cfg : Cfg) (outpath : String) :
    List (String × String) → RunResult
  | [] => ([], none)
  | (ext_from, ext_to) :: rest =>
    let src := outpath ++ ext_from
    let dest := outpath ++ ext_to
    if cfg.ex src then
      runSeq ([Event.renameEv src dest], none) (renameLoop cfg outpath rest)
    else ([], some ("FileNotFoundError: " ++ src))

/-- The Per-Input Processor `process(inpath, outdir)`. -/
def process (cfg : Cfg) (inpath outdir0 : String) : RunResult :=
  let outdir := cfg.abs outdir0
  let outname := basename inpath
  let outpath := joinPath outdir outname
  runSeq
    ([Event.logInfo ("Processing " ++ inpath ++ " -> " ++ outdir),
      Event.logInfo ("Copying " ++ inpath ++ " -> " ++ outpath),
      Event.copyEv inpath outpath], none)
    (runSeq (archiveLoop cfg inpath outpath outdir ARCHIVERS)
      (runSeq (compressLoop cfg inpath outname outpath outdir COMPRESSORS)
        (renameLoop cfg outpath EXTENSION_COMPRESSION)))

/-- The PROCESS-INPUTS loop of `main` (lines 225-230): a nonexistent input
gets a warning and is skipped; an existing one is processed. -/
def processInputs (cfg : Cfg) (tempDir : String) : List String → RunResult
  | [] => ([], none)
  | p :: rest =>
    if cfg.ex p then
      runSeq (process cfg p tempDir) (processInputs cfg tempDir rest)
    else
      runSeq ([Event.logWarn ("Input path does not exist: " ++ p)], none)
        (processInputs cfg tempDir rest)

/-- Models a `parchive(path)` invocation as a unit (its internals only run
the external `par2` tool). -/
def parchiveRun (cfg : Cfg) (p : String) : RunResult :=
  ([Event.parchiveEv p], if cfg.parFail p then some "CalledProcessError" else none)

/-- The PARITY loop body of `main` (lines 232-239), over an already-sorted
entry list. -/
def parityLoop (cfg : Cfg) (noPar2 : Bool) (tempDir : String) : List String → RunResult
  | [] => ([], none)
  | fname :: rest =>
    let temp_path := joinPath tempDir fname
    if endsStr temp_path ".par2" then
      runSeq ([Event.logDebug ("Not generating .par2.par2: " ++ temp_path)], none)
        (parityLoop cfg noPar2 tempDir rest)
    else
      runSeq ([Event.logInfo ("Applying par2 to " ++ temp_path)], none)
        (runSeq (if noPar2 then ([], none) else parchiveRun cfg temp_path)
          (parityLoop cfg noPar2 tempDir rest))

/-- The PARITY step of `main`: iterate over `sorted(os.listdir(temp_dir))`
(the listing is supplied by the `entries` oracle). -/
def parityStep (cfg : Cfg) (noPar2 : Bool) (tempDir : String) (entries : List String) :
    RunResult :=
  parityLoop cfg noPar2 tempDir (sortStrings entries)

/-- The targets of the Parity Generator invocations appearing in a trace. -/
def parchiveTargets (t : List Event) : List String :=
  t.filterMap fun e => match e with
    | .parchiveEv p => some p
    | _ => none

/-- The graft-construction loop of `generate_iso` (lines 165-173), with
the `grafts_seen` accumulator. -/
def graftLoop (src_dir : String) (seen : List String) :
    List String → Except String (List String)
  | [] => .ok []
  | fname :: rest =>
    let name := escape_graft fname
    let path := escape_graft (joinPath src_dir fname)
    if name ∈ seen then .error name
    else
      match graftLoop src_dir (seen ++ [name]) rest with
      | .error e => .error e
      | .ok g => .ok ((name ++ "=" ++ path) :: g)

/-- Graft construction over the top-level entries of the source directory. -/
def buildGrafts (src_dir : String) (entries : List String) : Except String (List String) :=
  graftLoop src_dir [] entries

/-- The ISO/ECC Generator `generate_iso(src_dir, outpath, volume_id)`; the
directory listing is supplied by the `entries` oracle. -/
def generate_iso (cfg : Cfg) (src_dir0 outpath volume_id : String)
    (entries : List String) : RunResult :=
  let src_dir := cfg.abs src_dir0
  match buildGrafts src_dir entries with
  | .error n => ([], some ("AssertionError: Naming collision: " ++ n))
  | .ok grafts =>
    runSeq
      (callRun cfg (["genisoimage"] ++ GENISOFS_OPTS
        ++ ["-volid", volume_id, "-o", outpath, "-graft-points"] ++ grafts) none)
      (callRun cfg ["dvdisaster", "-c", "-x", toString cfg.cores,
        "-mRS02", "-n", "CD", "-i", outpath] none)

/-- Volume-id resolution in `main` (lines 241-243): `if not volume_id`
is taken for both an absent and an empty `--volid`. -/
def resolveVolumeId (volid : Option String) (first : String) : String :=
  match volid with
  | some v => if v = "" then pySlice32 (basename first) else v
  | none => pySlice32 (basename first)

/-- The body of `main`'s `try:` block: PROCESS-INPUTS, PARITY, BUILD-ISO.
`entries1` and `entries2` are the two `os.listdir(temp_dir)` results (taken
during the parity step and inside `generate_iso` respectively). -/
def mainBody (cfg : Cfg) (inpaths : List String) (noPar2 : Bool)
    (volid : Option String) (outpath tempDir : String)
    (entries1 entries2 : List String) : RunResult :=
  runSeq (processInputs cfg tempDir inpaths)
    (runSeq (parityStep cfg noPar2 tempDir entries1)
      (generate_iso cfg tempDir outpath (resolveVolumeId volid (inpaths.headD ""))
        entries2))

/-- Models `main` around the staging directory: `tempfile.mkdtemp`, the
`try:` body, and the `finally: shutil.rmtree(temp_dir)` which runs on every
exit path while preserving the body's outcome. -/
def mainRun (cfg : Cfg) (inpaths : List String) (noPar2 : Bool)
    (volid : Option String) (outpath tempDir : String)
    (entries1 entries2 : List String) : RunResult :=
  let body := mainBody cfg inpaths noPar2 volid outpath tempDir entries1 entries2
  (Event.mkdtempEv tempDir :: body.1 ++ [Event.rmtreeEv tempDir], body.2)

/-- An environment in which every path exists and is a plain file and every
external tool succeeds. -/
def cfgAll : Cfg :=
  ⟨fun _ => true, fun _ => true, id, fun _ _ => false, fun _ => false, 4⟩

/-- An environment in which no queried path exists. -/
def cfgNone : Cfg :=
  ⟨fun _ => false, fun _ => false, id, fun _ _ => false, fun _ => false, 4⟩

/-- An environment in which every path except `"ghost"` exists. -/
def cfgGhost : Cfg :=
  ⟨fun s => !(s == "ghost"), fun _ => true, id, fun _ _ => false, fun _ => false, 4⟩

/-! ### Lemmas about the escaping machinery -/

theorem replaceC_append (a b : List Char) (n : Char) (r : List Char) :
    replaceC (a ++ b) n r = replaceC a n r ++ replaceC b n r := by
  induction a with
  | nil => rfl
  | cons c t ih => simp [replaceC, ih]

theorem escGraftL_cons (c : Char) (t : List Char) :
    escGraftL (c :: t) = escChar c ++ escGraftL t := by
  unfold escGraftL escChar
  by_cases h1 : c = '\\'
  · subst h1
    simp [replaceC, replaceC_append]
  · by_cases h2 : c = '='
    · subst h2
      simp [replaceC, replaceC_append]
    · simp [replaceC, replaceC_append, h1, h2]

theorem escGraftL_eq_flatMap (l : List Char) : escGraftL l = l.flatMap escChar := by
  induction l with
  | nil => rfl
  | cons c t ih => rw [escGraftL_cons, ih, List.flatMap_cons]

theorem unescapeL_bs (d : Char) (rest : List Char) :
    unescapeL ('\\' :: d :: rest) = d :: unescapeL rest := by
  simp [unescapeL]

theorem unescapeL_other (c : Char) (rest : List Char) (h : ¬ c = '\\') :
    unescapeL (c :: rest) = c :: unescapeL rest := by
  rw [unescapeL.eq_def]
  simp only [if_neg h]

theorem unescapeL_escGraftL (l : List Char) : unescapeL (escGraftL l) = l := by
  induction l with
  | nil => rfl
  | cons c t ih =>
    rw [escGraftL_cons]
    unfold escChar
    by_cases h1 : c = '\\'
    · subst h1
      rw [if_pos rfl]
      show unescapeL ('\\' :: '\\' :: escGraftL t) = '\\' :: t
      rw [unescapeL_bs, ih]
    · by_cases h2 : c = '='
      · subst h2
        rw [if_neg h1, if_pos rfl]
        show unescapeL ('\\' :: '=' :: escGraftL t) = '=' :: t
        rw [unescapeL_bs, ih]
      · rw [if_neg h1, if_neg h2]
        show unescapeL (c :: escGraftL t) = c :: t
        rw [unescapeL_other c _ h1, ih]

theorem splitEsc_bs (d : Char) (rest : List Char) :
    splitEsc ('\\' :: d :: rest) = (splitEsc rest).map fun p => ('\\' :: d :: p.1, p.2) := by
  simp [splitEsc]

theorem splitEsc_other (c : Char) (rest : List Char) (h1 : ¬ c = '=') (h2 : ¬ c = '\\') :
    splitEsc (c :: rest) = (splitEsc rest).map fun p => (c :: p.1, p.2) := by
  rw [splitEsc.eq_def]
  simp only [if_neg h1, if_neg h2]

theorem splitEsc_escape (name : List Char) (t : List Char) :
    splitEsc (escGraftL name ++ '=' :: t) = some (escGraftL name, t) := by
  induction name with
  | nil =>
    show splitEsc ('=' :: t) = some ([], t)
    rw [splitEsc.eq_def]
    simp
  | cons c tl ih =>
    rw [escGraftL_cons]
    unfold escChar
    by_cases h1 : c = '\\'
    · subst h1
      rw [if_pos rfl]
      show splitEsc ('\\' :: '\\' :: (escGraftL tl ++ '=' :: t)) = _
      rw [splitEsc_bs, ih]
      rfl
    · by_cases h2 : c = '='
      · subst h2
        rw [if_neg h1, if_pos rfl]
        show splitEsc ('\\' :: '=' :: (escGraftL tl ++ '=' :: t)) = _
        rw [splitEsc_bs, ih]
        rfl
      · rw [if_neg h1, if_neg h2]
        show splitEsc (c :: (escGraftL tl ++ '=' :: t)) = _
        rw [splitEsc_other c _ h2 h1, ih]
        rfl

theorem escape_graft_injective : ∀ s t : String, escape_graft s = escape_graft t → s = t := by
  intro s t h
  cases s with
  | mk ds =>
    cases t with
    | mk dt =>
      have hdata : escGraftL ds = escGraftL dt := congrArg String.data h
      have : ds = dt := by
        have h2 := congrArg unescapeL hdata
        rwa [unescapeL_escGraftL, unescapeL_escGraftL] at h2
      rw [this]

/-! ### Lemmas about sequencing -/

theorem runSeq_fst_of_none {a b : RunResult} (h : a.2 = none) :
    (runSeq a b).1 = a.1 ++ b.1 := by
  obtain ⟨t, o⟩ := a
  cases o with
  | none => rfl
  | some e => simp at h

theorem runSeq_snd_of_none {a b : RunResult} (h : a.2 = none) :
    (runSeq a b).2 = b.2 := by
  obtain ⟨t, o⟩ := a
  cases o with
  | none => rfl
  | some e => simp at h

theorem runSeq_of_some {a : RunResult} {e : String} (b : RunResult) (h : a.2 = some e) :
    runSeq a b = (a.1, some e) := by
  obtain ⟨t, o⟩ := a
  cases o with
  | none => simp at h
  | some e2 =>
    obtain rfl : e2 = e := by simpa using h
    rfl

theorem mem_runSeq {e : Event} {a b : RunResult} (h : e ∈ (runSeq a b).1) :
    e ∈ a.1 ∨ e ∈ b.1 := by
  obtain ⟨t, o⟩ := a
  cases o with
  | none =>
    rw [runSeq_fst_of_none rfl] at h
    exact List.mem_append.mp h
  | some e2 => exact Or.inl h

/-! ### Suffix lemmas used for the `.par2` test through `os.path.join` -/

theorem suffix_of_suffix_le {l₁ l₂ l : List Char} (h₁ : l₁ <:+ l) (h₂ : l₂ <:+ l)
    (hle : l₁.length ≤ l₂.length) : l₁ <:+ l₂ := by
  obtain ⟨a, ha⟩ := h₁
  obtain ⟨b, hb⟩ := h₂
  have hab : a ++ l₁ = b ++ l₂ := ha.trans hb.symm
  rcases List.append_eq_append_iff.mp hab with ⟨w, hw1, hw2⟩ | ⟨w, hw1, hw2⟩
  · have hlen : l₁.length = w.length + l₂.length := by
      rw [hw2]; simp
    have hw0 : w.length = 0 := by omega
    rw [List.length_eq_zero.mp hw0] at hw2
    simp [hw2]
  · exact ⟨w, hw2.symm⟩

theorem suffix_slash {a b pat : List Char} (hp : '/' ∉ pat) :
    pat <:+ (a ++ '/' :: b) ↔ pat <:+ b := by
  constructor
  · intro h
    rcases le_or_lt pat.length b.length with hle | hlt
    · exact suffix_of_suffix_le h ⟨a ++ ['/'], by simp⟩ hle
    · exfalso
      have hsb : ('/' :: b) <:+ (a ++ '/' :: b) := ⟨a, rfl⟩
      have : ('/' :: b) <:+ pat := suffix_of_suffix_le hsb h (by simpa using hlt)
      exact hp (this.mem (List.mem_cons_self _ _))
  · intro h
    exact h.trans ⟨a ++ ['/'], by simp⟩

theorem eq_append_of_getLast? : ∀ (l : List Char) (c : Char),
    l.getLast? = some c → ∃ l', l = l' ++ [c] := by
  intro l
  induction l with
  | nil => intro c h; simp at h
  | cons a t ih =>
    intro c h
    cases t with
    | nil =>
      have : a = c := by simpa using h
      exact ⟨[], by simp [this]⟩
    | cons b t2 =>
      rw [List.getLast?_cons_cons] at h
      obtain ⟨l', hl'⟩ := ih c h
      exact ⟨a :: l', by rw [hl']; rfl⟩

theorem endsStr_eq_true_iff (s pat : String) : endsStr s pat = true ↔ pat.data <:+ s.data := by
  simp [endsStr]

theorem endsStr_joinPath (d f : String) :
    endsStr (joinPath d f) ".par2" = endsStr f ".par2" := by
  have hp : '/' ∉ ".par2".data := by decide
  unfold endsStr joinPath
  rw [decide_eq_decide]
  split
  · exact Iff.rfl
  · split
    · exact Iff.rfl
    · split
      · next hlast =>
        obtain ⟨l', hl'⟩ := eq_append_of_getLast? d.data '/' hlast
        rw [String.data_append, hl', List.append_assoc]
        exact suffix_slash hp
      · rw [String.data_append, String.data_append,
          show ("/" : String).data = ['/'] from rfl, List.append_assoc,
          List.singleton_append]
        exact suffix_slash hp

theorem mem_runSeq_left {e : Event} {a : RunResult} (b : RunResult) (h : e ∈ a.1) :
    e ∈ (runSeq a b).1 := by
  obtain ⟨t, o⟩ := a
  cases o with
  | none => exact List.mem_append_left _ h
  | some e2 => exact h

theorem mem_runSeq_right {e : Event} {a b : RunResult} (ha : a.2 = none) (h : e ∈ b.1) :
    e ∈ (runSeq a b).1 := by
  rw [runSeq_fst_of_none ha]
  exact List.mem_append_right _ h

/-! ### Shapes and outcomes of the `process` loops -/

theorem callRun_snd_none {cfg : Cfg} {argv : List String} {cwd : Option String}
    (h : cfg.callFail argv cwd = false) : (callRun cfg argv cwd).2 = none := by
  simp [callRun, h]

theorem archiveLoop_no_fail {cfg : Cfg} (inp op od : String)
    (hcall : ∀ a c, cfg.callFail a c = false) :
    ∀ l, (archiveLoop cfg inp op od l).2 = none := by
  intro l
  induction l with
  | nil => rfl
  | cons pr rest ih =>
    obtain ⟨ext, archiver⟩ := pr
    show (runSeq ([_], none) (runSeq (callRun cfg _ _) _)).2 = none
    rw [runSeq_snd_of_none rfl, runSeq_snd_of_none (callRun_snd_none (hcall _ _))]
    exact ih

theorem compressLoop_no_fail {cfg : Cfg} (inp outname op od : String)
    (hcall : ∀ a c, cfg.callFail a c = false) :
    ∀ l, (compressLoop cfg inp outname op od l).2 = none := by
  intro l
  induction l with
  | nil => rfl
  | cons pr rest ih =>
    obtain ⟨ext, compressor⟩ := pr
    unfold compressLoop
    rw [runSeq_snd_of_none, runSeq_snd_of_none]
    · exact ih
    · rw [runSeq_snd_of_none rfl]
      exact callRun_snd_none (hcall _ _)
    · split
      · rw [runSeq_snd_of_none rfl]
        exact callRun_snd_none (hcall _ _)
      · rfl

theorem compressLoop_eq {cfg : Cfg} (inp outname op od : String)
    (hcall : ∀ a c, cfg.callFail a c = false) :
    ∀ l, compressLoop cfg inp outname op od l =
      (l.flatMap (fun pr =>
        (if cfg.isf op then
          [Event.logInfo ("Compressing " ++ inp ++ " with " ++ pr.2),
           Event.call (shlexSplit pr.2 ++ [op]) (some od)]
         else [])
        ++ [Event.logInfo ("Compressing " ++ (outname ++ ".tar") ++ " with " ++ pr.2),
            Event.call (shlexSplit pr.2 ++ [outname ++ ".tar"]) (some od)]), none) := by
  intro l
  induction l with
  | nil => rfl
  | cons pr rest ih =>
    obtain ⟨ext, compressor⟩ := pr
    unfold compressLoop
    rw [ih]
    by_cases hf : cfg.isf op
    · simp [hf, runSeq, callRun, hcall]
    · simp [hf, runSeq, callRun, hcall]

theorem renameLoop_ok {cfg : Cfg} (op : String) :
    ∀ l, (∀ pr ∈ l, cfg.ex (op ++ pr.1) = true) →
      renameLoop cfg op l =
        (l.map fun pr => Event.renameEv (op ++ pr.1) (op ++ pr.2), none) := by
  intro l
  induction l with
  | nil => intro _; rfl
  | cons pr rest ih =>
    intro hex
    obtain ⟨ef, et⟩ := pr
    have hhead : cfg.ex (op ++ ef) = true := hex _ (List.mem_cons_self _ _)
    show (if cfg.ex (op ++ ef) then _ else _) = _
    rw [if_pos hhead, ih (fun q hq => hex q (List.mem_cons_of_mem _ hq))]
    simp [runSeq]

theorem renameLoop_fail {cfg : Cfg} (op : String) :
    ∀ l, (∃ pr ∈ l, cfg.ex (op ++ pr.1) = false) →
      ((renameLoop cfg op l).2).isSome = true := by
  intro l
  induction l with
  | nil => intro h; simp at h
  | cons pr rest ih =>
    intro hex
    obtain ⟨ef, et⟩ := pr
    show ((if cfg.ex (op ++ ef) then _ else _) : RunResult).2.isSome = true
    by_cases hhead : cfg.ex (op ++ ef) = true
    · rw [if_pos hhead, runSeq_snd_of_none rfl]
      obtain ⟨q, hq, hqex⟩ := hex
      rcases List.mem_cons.mp hq with rfl | hq2
      · rw [hhead] at hqex; cases hqex
      · exact ih ⟨q, hq2, hqex⟩
    · rw [if_neg hhead]
      rfl

/-- An event emitted by the archive, compress or rename loops: a log line,
a subprocess call, or a rename. -/
def plainEv (e : Event) : Prop :=
  (∃ m, e = Event.logInfo m) ∨ (∃ a c, e = Event.call a c) ∨ (∃ s d, e = Event.renameEv s d)

theorem archiveLoop_shape {cfg : Cfg} (inp op od : String) :
    ∀ l, ∀ e ∈ (archiveLoop cfg inp op od l).1, plainEv e := by
  intro l
  induction l with
  | nil => intro e he; simp [archiveLoop] at he
  | cons pr rest ih =>
    obtain ⟨ext, archiver⟩ := pr
    intro e he
    rcases mem_runSeq he with h1 | h2
    · rcases List.mem_singleton.mp h1 with rfl
      split <;> exact Or.inl ⟨_, rfl⟩
    · rcases mem_runSeq h2 with h3 | h4
      · rcases List.mem_singleton.mp h3 with rfl
        exact Or.inr (Or.inl ⟨_, _, rfl⟩)
      · exact ih e h4

theorem compressLoop_shape {cfg : Cfg} (inp outname op od : String) :
    ∀ l, ∀ e ∈ (compressLoop cfg inp outname op od l).1, plainEv e := by
  intro l
  induction l with
  | nil => intro e he; simp [compressLoop] at he
  | cons pr rest ih =>
    obtain ⟨ext, compressor⟩ := pr
    intro e he
    rcases mem_runSeq he with h1 | h2
    · revert h1
      split
      · intro h1
        rcases mem_runSeq h1 with h5 | h6
        · rcases List.mem_singleton.mp h5 with rfl
          exact Or.inl ⟨_, rfl⟩
        · rcases List.mem_singleton.mp h6 with rfl
          exact Or.inr (Or.inl ⟨_, _, rfl⟩)
      · intro h1; simp at h1
    · rcases mem_runSeq h2 with h3 | h4
      · rcases mem_runSeq h3 with h5 | h6
        · rcases List.mem_singleton.mp h5 with rfl
          exact Or.inl ⟨_, rfl⟩
        · rcases List.mem_singleton.mp h6 with rfl
          exact Or.inr (Or.inl ⟨_, _, rfl⟩)
      · exact ih e h4

theorem renameLoop_shape {cfg : Cfg} (op : String) :
    ∀ l, ∀ e ∈ (renameLoop cfg op l).1, plainEv e := by
  intro l
  induction l with
  | nil => intro e he; simp [renameLoop] at he
  | cons pr rest ih =>
    obtain ⟨ef, et⟩ := pr
    intro e he
    revert he
    show e ∈ ((if cfg.ex (op ++ ef) then _ else _) : RunResult).1 → _
    split
    · intro he
      rcases mem_runSeq he with h1 | h2
      · rcases List.mem_singleton.mp h1 with rfl
        exact Or.inr (Or.inr ⟨_, _, rfl⟩)
      · exact ih e h2
    · intro he
      simp at he

theorem process_shape {cfg : Cfg} (q d : String) :
    ∀ e ∈ (process cfg q d).1,
      plainEv e ∨ e = Event.copyEv q (joinPath (cfg.abs d) (basename q)) := by
  intro e he
  unfold process at he
  rcases mem_runSeq he with h1 | h2
  · rcases List.mem_cons.mp h1 with rfl | h1b
    · exact Or.inl (Or.inl ⟨_, rfl⟩)
    · rcases List.mem_cons.mp h1b with rfl | h1c
      · exact Or.inl (Or.inl ⟨_, rfl⟩)
      · rcases List.mem_singleton.mp h1c with rfl
        exact Or.inr rfl
  · rcases mem_runSeq h2 with h3 | h4
    · exact Or.inl (archiveLoop_shape _ _ _ _ e h3)
    · rcases mem_runSeq h4 with h5 | h6
      · exact Or.inl (compressLoop_shape _ _ _ _ _ e h5)
      · exact Or.inl (renameLoop_shape _ _ e h6)

theorem process_no_warn {cfg : Cfg} (q d : String) :
    ∀ e ∈ (process cfg q d).1, e.isLogWarn = false := by
  intro e he
  rcases process_shape q d e he with h | h
  · rcases h with ⟨m, rfl⟩ | ⟨a, c, rfl⟩ | ⟨s, dd, rfl⟩ <;> rfl
  · rw [h]; rfl

theorem process_copy_src {cfg : Cfg} (q d s dd : String)
    (h : Event.copyEv s dd ∈ (process cfg q d).1) : s = q := by
  rcases process_shape q d _ h with hp | hp
  · rcases hp with ⟨m, hm⟩ | ⟨a, c, hc⟩ | ⟨s2, d2, hr⟩
    · cases hm
    · cases hc
    · cases hr
  · injection hp with h1 h2

/-! ### The PROCESS-INPUTS loop -/

theorem runSeq_snd_none_iff {a b : RunResult} :
    (runSeq a b).2 = none ↔ a.2 = none ∧ b.2 = none := by
  obtain ⟨t, o⟩ := a
  cases o with
  | none => simp [runSeq]
  | some e => simp [runSeq]

theorem processInputs_cons_pos {cfg : Cfg} {td q : String} {rest : List String}
    (hq : cfg.ex q = true) :
    processInputs cfg td (q :: rest)
      = runSeq (process cfg q td) (processInputs cfg td rest) := by
  simp [processInputs, hq]

theorem processInputs_cons_neg {cfg : Cfg} {td q : String} {rest : List String}
    (hq : ¬ cfg.ex q = true) :
    processInputs cfg td (q :: rest)
      = runSeq ([Event.logWarn ("Input path does not exist: " ++ q)], none)
          (processInputs cfg td rest) := by
  simp [processInputs, hq]

theorem processInputs_warn_mem {cfg : Cfg} (td : String) :
    ∀ (l : List String) (p : String), p ∈ l → cfg.ex p = false →
      (processInputs cfg td l).2 = none →
      Event.logWarn ("Input path does not exist: " ++ p) ∈ (processInputs cfg td l).1 := by
  intro l
  induction l with
  | nil => intro p hp; simp at hp
  | cons q rest ih =>
    intro p hp hex hok
    by_cases hq : cfg.ex q = true
    · rw [processInputs_cons_pos hq] at hok ⊢
      obtain ⟨h1, h2⟩ := runSeq_snd_none_iff.mp hok
      rcases List.mem_cons.mp hp with rfl | hp2
      · rw [hq] at hex; cases hex
      · exact mem_runSeq_right h1 (ih p hp2 hex h2)
    · rw [processInputs_cons_neg hq] at hok ⊢
      rw [runSeq_fst_of_none rfl]
      rcases List.mem_cons.mp hp with rfl | hp2
      · exact List.mem_append_left _ (List.mem_singleton.mpr rfl)
      · rw [runSeq_snd_of_none rfl] at hok
        exact List.mem_append_right _ (ih p hp2 hex hok)

theorem processInputs_no_copy {cfg : Cfg} (td : String) :
    ∀ (l : List String) (p dd : String), cfg.ex p = false →
      Event.copyEv p dd ∉ (processInputs cfg td l).1 := by
  intro l
  induction l with
  | nil => intro p dd _ h; simp [processInputs] at h
  | cons q rest ih =>
    intro p dd hex h
    by_cases hq : cfg.ex q = true
    · rw [processInputs_cons_pos hq] at h
      rcases mem_runSeq h with h1 | h2
      · have : p = q := process_copy_src q td p dd h1
        rw [this, hq] at hex
        cases hex
      · exact ih p dd hex h2
    · rw [processInputs_cons_neg hq] at h
      rcases mem_runSeq h with h1 | h2
      · cases List.mem_singleton.mp h1
      · exact ih p dd hex h2

theorem processInputs_filter_eq {cfg : Cfg} (td : String) :
    ∀ l : List String,
      (processInputs cfg td l).1.filter (fun e => !e.isLogWarn)
          = (processInputs cfg td (l.filter (fun p => cfg.ex p))).1
      ∧ (processInputs cfg td l).2
          = (processInputs cfg td (l.filter (fun p => cfg.ex p))).2 := by
  intro l
  induction l with
  | nil => exact ⟨rfl, rfl⟩
  | cons q rest ih =>
    by_cases hq : cfg.ex q = true
    · rw [show processInputs cfg td (q :: rest) = runSeq (process cfg q td)
          (processInputs cfg td rest) by simp [processInputs, hq],
        show (q :: rest).filter (fun p => cfg.ex p) = q :: rest.filter (fun p => cfg.ex p)
          by simp [List.filter_cons, hq],
        show processInputs cfg td (q :: rest.filter (fun p => cfg.ex p))
            = runSeq (process cfg q td) (processInputs cfg td (rest.filter (fun p => cfg.ex p)))
          by simp [processInputs, hq]]
      have hfp : (process cfg q td).1.filter (fun e => !e.isLogWarn) = (process cfg q td).1 :=
        List.filter_eq_self.mpr (fun e he => by rw [process_no_warn q td e he]; rfl)
      cases hpq : (process cfg q td).2 with
      | some e =>
        rw [runSeq_of_some _ hpq, runSeq_of_some _ hpq]
        exact ⟨hfp, rfl⟩
      | none =>
        rw [runSeq_fst_of_none hpq, runSeq_fst_of_none hpq,
          runSeq_snd_of_none hpq, runSeq_snd_of_none hpq]
        refine ⟨?_, ih.2⟩
        rw [List.filter_append, hfp, ih.1]
    · rw [show processInputs cfg td (q :: rest) = runSeq ([Event.logWarn
          ("Input path does not exist: " ++ q)], none)
          (processInputs cfg td rest) by simp [processInputs, hq],
        show (q :: rest).filter (fun p => cfg.ex p) = rest.filter (fun p => cfg.ex p)
          by simp [List.filter_cons, hq]]
      rw [runSeq_fst_of_none rfl, runSeq_snd_of_none rfl]
      refine ⟨?_, ih.2⟩
      rw [List.filter_append, ih.1]
      rfl

/-! ### The PARITY loop -/

theorem parchiveRun_snd_none {cfg : Cfg} {p : String} (h : cfg.parFail p = false) :
    (parchiveRun cfg p).2 = none := by
  simp [parchiveRun, h]

theorem parityLoop_cons_par2 {cfg : Cfg} {noPar2 : Bool} {td f : String} {rest : List String}
    (he : endsStr (joinPath td f) ".par2" = true) :
    parityLoop cfg noPar2 td (f :: rest)
      = runSeq ([Event.logDebug ("Not generating .par2.par2: " ++ joinPath td f)], none)
          (parityLoop cfg noPar2 td rest) := by
  simp [parityLoop, he]

theorem parityLoop_cons_other {cfg : Cfg} {noPar2 : Bool} {td f : String} {rest : List String}
    (he : ¬ endsStr (joinPath td f) ".par2" = true) :
    parityLoop cfg noPar2 td (f :: rest)
      = runSeq ([Event.logInfo ("Applying par2 to " ++ joinPath td f)], none)
          (runSeq (if noPar2 then (([], none) : RunResult) else parchiveRun cfg (joinPath td f))
            (parityLoop cfg noPar2 td rest)) := by
  simp [parityLoop, he]

theorem parityLoop_targets_false {cfg : Cfg} (td : String)
    (hpar : ∀ p, cfg.parFail p = false) :
    ∀ l, parchiveTargets (parityLoop cfg false td l).1
      = (l.filter (fun f => !(endsStr (joinPath td f) ".par2"))).map (joinPath td) := by
  intro l
  induction l with
  | nil => rfl
  | cons f rest ih =>
    by_cases he : endsStr (joinPath td f) ".par2" = true
    · rw [parityLoop_cons_par2 he, runSeq_fst_of_none rfl]
      rw [show (f :: rest).filter (fun g => !(endsStr (joinPath td g) ".par2"))
          = rest.filter (fun g => !(endsStr (joinPath td g) ".par2")) by simp [List.filter_cons, he]]
      simp only [parchiveTargets, List.filterMap_append] at ih ⊢
      rw [ih]
      rfl
    · rw [parityLoop_cons_other he]
      rw [show (if false then (([], none) : RunResult) else parchiveRun cfg (joinPath td f))
          = parchiveRun cfg (joinPath td f) from rfl]
      rw [runSeq_fst_of_none rfl, runSeq_fst_of_none (parchiveRun_snd_none (hpar _))]
      rw [show (f :: rest).filter (fun g => !(endsStr (joinPath td g) ".par2"))
          = f :: rest.filter (fun g => !(endsStr (joinPath td g) ".par2"))
          by simp [List.filter_cons, he]]
      simp only [parchiveTargets, List.filterMap_append] at ih ⊢
      rw [ih]
      rfl

theorem parityLoop_targets_true {cfg : Cfg} (td : String) :
    ∀ l, parchiveTargets (parityLoop cfg true td l).1 = [] := by
  intro l
  induction l with
  | nil => rfl
  | cons f rest ih =>
    by_cases he : endsStr (joinPath td f) ".par2" = true
    · rw [parityLoop_cons_par2 he, runSeq_fst_of_none rfl]
      simp only [parchiveTargets, List.filterMap_append] at ih ⊢
      rw [ih]
      rfl
    · rw [parityLoop_cons_other he]
      rw [show (if true then (([], none) : RunResult) else parchiveRun cfg (joinPath td f))
          = (([], none) : RunResult) from rfl]
      rw [runSeq_fst_of_none rfl, runSeq_fst_of_none rfl]
      simp only [parchiveTargets, List.filterMap_append] at ih ⊢
      rw [ih]
      rfl

/-! ### Graft construction -/

theorem graftLoop_ok (dir : String) :
    ∀ (l seen : List String), (l.map escape_graft).Nodup →
      (∀ f ∈ l, escape_graft f ∉ seen) →
      graftLoop dir seen l
        = .ok (l.map fun f => escape_graft f ++ "=" ++ escape_graft (joinPath dir f)) := by
  intro l
  induction l with
  | nil => intro seen _ _; rfl
  | cons f rest ih =>
    intro seen hnd hseen
    have hf : escape_graft f ∉ seen := hseen f (List.mem_cons_self _ _)
    rw [List.map_cons, List.nodup_cons] at hnd
    have hrec := ih (seen ++ [escape_graft f]) hnd.2 (by
      intro g hg
      rw [List.mem_append]
      rintro (hL | hR)
      · exact hseen g (List.mem_cons_of_mem _ hg) hL
      · rcases List.mem_singleton.mp hR with heq
        exact hnd.1 (heq ▸ List.mem_map_of_mem escape_graft hg))
    show (if escape_graft f ∈ seen then _ else _) = _
    rw [if_neg hf, hrec]
    rfl

theorem graftLoop_err (dir : String) :
    ∀ (l seen : List String),
      (¬ (l.map escape_graft).Nodup ∨ ∃ f ∈ l, escape_graft f ∈ seen) →
      ∃ n, graftLoop dir seen l = .error n := by
  intro l
  induction l with
  | nil =>
    intro seen h
    rcases h with h | ⟨f, hf, _⟩
    · exact absurd List.nodup_nil h
    · simp at hf
  | cons f rest ih =>
    intro seen h
    by_cases hseen : escape_graft f ∈ seen
    · refine ⟨escape_graft f, ?_⟩
      show (if escape_graft f ∈ seen then _ else _) = _
      rw [if_pos hseen]
    · have hrest : ¬ (rest.map escape_graft).Nodup
          ∨ ∃ g ∈ rest, escape_graft g ∈ seen ++ [escape_graft f] := by
        rcases h with hnd | ⟨g, hg, hgseen⟩
        · rw [List.map_cons, List.nodup_cons] at hnd
          by_cases hmem : escape_graft f ∈ rest.map escape_graft
          · obtain ⟨g, hg, hgeq⟩ := List.mem_map.mp hmem
            exact Or.inr ⟨g, hg, List.mem_append_right _ (List.mem_singleton.mpr hgeq)⟩
          · refine Or.inl ?_
            intro hnd2
            exact hnd ⟨hmem, hnd2⟩
        · rcases List.mem_cons.mp hg with rfl | hg2
          · exact absurd hgseen hseen
          · exact Or.inr ⟨g, hg2, List.mem_append_left _ hgseen⟩
      obtain ⟨n, hn⟩ := ih (seen ++ [escape_graft f]) hrest
      refine ⟨n, ?_⟩
      show (if escape_graft f ∈ seen then _ else _) = _
      rw [if_neg hseen, hn]

/-! ### Remaining helper lemmas -/

theorem joinPath_inj (d x y : String) (hx : ¬ x.data.head? = some '/')
    (hy : ¬ y.data.head? = some '/') (h : joinPath d x = joinPath d y) : x = y := by
  unfold joinPath at h
  rw [if_neg hx, if_neg hy] at h
  by_cases hd : d = ""
  · rw [if_pos hd, if_pos hd] at h
    exact h
  · rw [if_neg hd, if_neg hd] at h
    by_cases hl : d.data.getLast? = some '/'
    · rw [if_pos hl, if_pos hl] at h
      have h2 := congrArg String.data h
      rw [String.data_append, String.data_append] at h2
      have h3 := List.append_cancel_left h2
      cases x
      cases y
      exact congrArg String.mk (by simpa using h3)
    · rw [if_neg hl, if_neg hl] at h
      have h2 := congrArg String.data h
      rw [String.data_append, String.data_append, String.data_append,
        String.data_append] at h2
      have h3 := List.append_cancel_left h2
      cases x
      cases y
      exact congrArg String.mk (by simpa using h3)

theorem collision_msg_ne (n : String) :
    ("CalledProcessError" : String) ≠ "AssertionError: Naming collision: " ++ n := by
  intro h
  have hl := congrArg String.length h
  rw [String.length_append] at hl
  rw [show ("CalledProcessError" : String).length = 18 by decide,
    show ("AssertionError: Naming collision: " : String).length = 34 by decide] at hl
  omega

theorem process_snd {cfg : Cfg} (inpath outdir : String)
    (hcall : ∀ a c, cfg.callFail a c = false) :
    (process cfg inpath outdir).2
      = (renameLoop cfg (joinPath (cfg.abs outdir) (basename inpath)) EXTENSION_COMPRESSION).2 := by
  simp only [process]
  rw [runSeq_snd_of_none rfl,
    runSeq_snd_of_none (archiveLoop_no_fail _ _ _ hcall _),
    runSeq_snd_of_none (compressLoop_no_fail _ _ _ _ hcall _)]

theorem process_rename_mem {cfg : Cfg} {e : Event} (inpath outdir : String)
    (hcall : ∀ a c, cfg.callFail a c = false)
    (h : e ∈ (renameLoop cfg (joinPath (cfg.abs outdir) (basename inpath))
        EXTENSION_COMPRESSION).1) :
    e ∈ (process cfg inpath outdir).1 := by
  simp only [process]
  exact mem_runSeq_right rfl
    (mem_runSeq_right (archiveLoop_no_fail _ _ _ hcall _)
      (mem_runSeq_right (compressLoop_no_fail _ _ _ _ hcall _) h))

/-! ### The claims -/

/-- C7: `escape_graft` turns a path into the character sequence obtained by
doubling every backslash and backslash-prefixing every equals sign (the
per-character map `escChar`), and the escaping round-trips: after an escaped
name and the `=` separator are prepended, splitting on the first unescaped
`=` returns exactly the escaped name and the escaped path, and unescaping
the path part recovers the original path exactly. -/
theorem c7_escape_graft_roundtrip (name path : String) :
    (escape_graft path).data = path.data.flatMap escChar
    ∧ splitEsc ((escape_graft name).data ++ '=' :: (escape_graft path).data)
        = some ((escape_graft name).data, (escape_graft path).data)
    ∧ unescapeL (escape_graft path).data = path.data := by
  refine ⟨escGraftL_eq_flatMap _, ?_, unescapeL_escGraftL _⟩
  exact splitEsc_escape _ _

/-- C10: `escape_graft` is injective, so since a directory listing has
pairwise-distinct names, the naming-collision branch of `generate_iso` is
unreachable for a real listing: graft construction succeeds on every
duplicate-free entry list. -/
theorem c10_escape_graft_injective :
    (∀ s t : String, escape_graft s = escape_graft t → s = t)
    ∧ ∀ (dir : String) (entries : List String), entries.Nodup →
        ∃ g, buildGrafts dir entries = Except.ok g := by
  refine ⟨escape_graft_injective, ?_⟩
  intro dir entries hnd
  refine ⟨_, graftLoop_ok dir entries [] ?_ ?_⟩
  · exact hnd.map (fun a b h => escape_graft_injective a b h)
  · intro f _ hmem
    simp at hmem

/-- Witness for C10 at concrete inputs. -/
theorem c10_escape_graft_injective_witness :
    ("a=b" : String) = "a=b"
    ∧ ∃ g, buildGrafts "/stage" ["a", "b"] = Except.ok g :=
  ⟨c10_escape_graft_injective.1 "a=b" "a=b" rfl,
   c10_escape_graft_injective.2 "/stage" ["a", "b"] (by decide)⟩

/-- C3 counterexample: a 33-character `--volid` is passed through to ISO
generation unchanged, so the volume identifier is not always at most 32
characters. -/
theorem c3_volid_counterexample :
    ¬ ((resolveVolumeId (some "AAAAAAAAAABBBBBBBBBBCCCCCCCCCCDDD") "input.bin").length ≤ 32) := by
  decide

/-- C3 amended: when `--volid` is absent or empty, the volume identifier is
the first 32 characters of the first input's base name (hence at most 32
characters long); a supplied non-empty `--volid` is passed through
unchanged, with no length enforcement. -/
theorem c3_volid_resolution (first v : String) :
    resolveVolumeId none first = pySlice32 (basename first)
    ∧ (resolveVolumeId none first).length ≤ 32
    ∧ resolveVolumeId (some "") first = pySlice32 (basename first)
    ∧ (v ≠ "" → resolveVolumeId (some v) first = v) := by
  refine ⟨rfl, ?_, rfl, ?_⟩
  · exact List.length_take_le 32 (basename first).data
  · intro hv
    simp [resolveVolumeId, hv]

/-- Witness for C3's amended statement at concrete inputs. -/
theorem c3_volid_resolution_witness :
    resolveVolumeId (some "MYVOL") "/data/input.bin" = "MYVOL"
    ∧ (resolveVolumeId none "/data/input.bin").length ≤ 32 :=
  ⟨(c3_volid_resolution "/data/input.bin" "MYVOL").2.2.2 (by decide),
   (c3_volid_resolution "/data/input.bin" "MYVOL").2.1⟩

/-- C4: on every run — whatever the outcome of input processing, parity
generation and ISO/ECC generation — the trace starts with the creation of
the staging directory and ends with its removal (the `finally` block), and
the body's outcome is preserved, so errors still propagate after cleanup. -/
theorem c4_cleanup_always (cfg : Cfg) (inpaths : List String) (noPar2 : Bool)
    (volid : Option String) (outpath tempDir : String) (entries1 entries2 : List String) :
    (mainRun cfg inpaths noPar2 volid outpath tempDir entries1 entries2).1.getLast?
        = some (Event.rmtreeEv tempDir)
    ∧ (mainRun cfg inpaths noPar2 volid outpath tempDir entries1 entries2).1.head?
        = some (Event.mkdtempEv tempDir)
    ∧ (mainRun cfg inpaths noPar2 volid outpath tempDir entries1 entries2).2
        = (mainBody cfg inpaths noPar2 volid outpath tempDir entries1 entries2).2 := by
  refine ⟨?_, rfl, rfl⟩
  show (Event.mkdtempEv tempDir ::
    ((mainBody cfg inpaths noPar2 volid outpath tempDir entries1 entries2).1
      ++ [Event.rmtreeEv tempDir])).getLast? = some (Event.rmtreeEv tempDir)
  rw [← List.cons_append, List.getLast?_concat]

/-- C1 (against the claim, evaluating the code): even in an environment
where every archive `<dest><ext>` already exists, the archiver command is
still invoked — the `subprocess.check_call` sits outside the `if/else`
at lines 133-142, which only chooses between the "Skipping" and
"Archiving" log lines. -/
theorem c1_archiver_invoked_despite_existing :
    cfgAll.ex "/stage/photo.jpg.zip" = true
    ∧ Event.logInfo "Skipping. Already exists: /stage/photo.jpg.zip"
        ∈ (process cfgAll "photo.jpg" "/stage").1
    ∧ Event.call ["zip", "-rT", "/stage/photo.jpg.zip", "photo.jpg"] (some "/stage")
        ∈ (process cfgAll "photo.jpg" "/stage").1 := by
  refine ⟨rfl, ?_, ?_⟩ <;> decide

/-- C2 counterexample: in a staging state where `<dest>.tar.bz2` does not
exist, the Per-Input Processor raises (`os.rename` of a missing source)
instead of skipping the pair — the claim's "the processor does not fail"
is false. -/
theorem c2_rename_missing_fails :
    (process cfgNone "photo.jpg" "/stage").2
      = some "FileNotFoundError: /stage/photo.jpg.tar.bz2" := by
  decide

/-- C2 amended: the rename is attempted unconditionally for every pair of
the Extension-Rename Table; when all four compound artifacts exist every
rename is performed and the processor completes, and whenever any compound
artifact is missing the processor raises instead of skipping that pair. -/
theorem c2_rename_unconditional (cfg : Cfg) (inpath outdir : String)
    (hcall : ∀ a c, cfg.callFail a c = false) :
    ((∀ pr ∈ EXTENSION_COMPRESSION,
        cfg.ex (joinPath (cfg.abs outdir) (basename inpath) ++ pr.1) = true) →
      (process cfg inpath outdir).2 = none
      ∧ ∀ pr ∈ EXTENSION_COMPRESSION,
          Event.renameEv (joinPath (cfg.abs outdir) (basename inpath) ++ pr.1)
              (joinPath (cfg.abs outdir) (basename inpath) ++ pr.2)
            ∈ (process cfg inpath outdir).1)
    ∧ ((∃ pr ∈ EXTENSION_COMPRESSION,
        cfg.ex (joinPath (cfg.abs outdir) (basename inpath) ++ pr.1) = false) →
      ((process cfg inpath outdir).2).isSome = true) := by
  constructor
  · intro hex
    have hren := renameLoop_ok (joinPath (cfg.abs outdir) (basename inpath))
      EXTENSION_COMPRESSION hex
    constructor
    · rw [process_snd inpath outdir hcall, hren]
    · intro pr hpr
      refine process_rename_mem inpath outdir hcall ?_
      rw [hren]
      exact List.mem_map_of_mem _ hpr
  · intro hex
    rw [process_snd inpath outdir hcall]
    exact renameLoop_fail _ EXTENSION_COMPRESSION hex

/-- Witness for C2's amended statement at concrete inputs. -/
theorem c2_rename_unconditional_witness :
    (process cfgAll "photo.jpg" "/stage").2 = none
    ∧ Event.renameEv (joinPath (cfgAll.abs "/stage") (basename "photo.jpg") ++ ".tar.bz2")
        (joinPath (cfgAll.abs "/stage") (basename "photo.jpg") ++ ".tbz2")
        ∈ (process cfgAll "photo.jpg" "/stage").1 :=
  ⟨((c2_rename_unconditional cfgAll "photo.jpg" "/stage" (fun _ _ => rfl)).1
      (fun _ _ => rfl)).1,
   ((c2_rename_unconditional cfgAll "photo.jpg" "/stage" (fun _ _ => rfl)).1
      (fun _ _ => rfl)).2 (".tar.bz2", ".tbz2") (by decide)⟩

/-- C9: in the compression step (with no external failure), each compressor
iteration compresses the copied input exactly when it is a plain file and
additionally submits the same `<basename>.tar` artifact once per iteration;
every configured compressor command carries the keep-original flag `-k`,
and there are five compressor iterations. -/
theorem c9_compression_loop (cfg : Cfg) (inpath outname outpath outdir : String)
    (hcall : ∀ a c, cfg.callFail a c = false) :
    compressLoop cfg inpath outname outpath outdir COMPRESSORS
      = (COMPRESSORS.flatMap (fun pr =>
          (if cfg.isf outpath then
            [Event.logInfo ("Compressing " ++ inpath ++ " with " ++ pr.2),
             Event.call (shlexSplit pr.2 ++ [outpath]) (some outdir)]
           else [])
          ++ [Event.logInfo ("Compressing " ++ (outname ++ ".tar") ++ " with " ++ pr.2),
              Event.call (shlexSplit pr.2 ++ [outname ++ ".tar"]) (some outdir)]), none)
    ∧ (∀ pr ∈ COMPRESSORS, "-k" ∈ shlexSplit pr.2)
    ∧ COMPRESSORS.length = 5 := by
  refine ⟨compressLoop_eq _ _ _ _ hcall _, ?_, rfl⟩
  decide

/-- Witness for C9 at concrete inputs. -/
theorem c9_compression_loop_witness :
    (compressLoop cfgAll "photo.jpg" "photo.jpg" "/stage/photo.jpg" "/stage" COMPRESSORS).2 = none
    ∧ "-k" ∈ shlexSplit "gzip -k" := by
  have h := c9_compression_loop cfgAll "photo.jpg" "photo.jpg" "/stage/photo.jpg" "/stage"
    (fun _ _ => rfl)
  refine ⟨?_, h.2.1 (".gz", "gzip -k") (by decide)⟩
  rw [h.1]

/-- C5: a supplied input path that does not exist is logged with a warning
(in any run whose PROCESS-INPUTS loop completes), is never handed to the
Per-Input Processor (no copy of it occurs in any run), and the run
continues with the remaining inputs: apart from the warning lines, the
trace and the outcome are exactly those of processing the existing inputs
only. -/
theorem c5_missing_input_skipped (cfg : Cfg) (tempDir : String) (inpaths : List String)
    (p : String) (hp : p ∈ inpaths) (hex : cfg.ex p = false) :
    ((processInputs cfg tempDir inpaths).2 = none →
      Event.logWarn ("Input path does not exist: " ++ p)
        ∈ (processInputs cfg tempDir inpaths).1)
    ∧ (∀ dd, Event.copyEv p dd ∉ (processInputs cfg tempDir inpaths).1)
    ∧ (processInputs cfg tempDir inpaths).1.filter (fun e => !e.isLogWarn)
        = (processInputs cfg tempDir (inpaths.filter (fun q => cfg.ex q))).1
    ∧ (processInputs cfg tempDir inpaths).2
        = (processInputs cfg tempDir (inpaths.filter (fun q => cfg.ex q))).2 :=
  ⟨fun hok => processInputs_warn_mem tempDir inpaths p hp hex hok,
   fun dd => processInputs_no_copy tempDir inpaths p dd hex,
   (processInputs_filter_eq tempDir inpaths).1,
   (processInputs_filter_eq tempDir inpaths).2⟩

/-- Witness for C5 at concrete inputs: with inputs `photo.jpg` (existing)
and `ghost` (missing), the warning is logged and `ghost` is never copied. -/
theorem c5_missing_input_skipped_witness :
    Event.logWarn ("Input path does not exist: " ++ "ghost")
      ∈ (processInputs cfgGhost "/stage" ["photo.jpg", "ghost"]).1
    ∧ Event.copyEv "ghost" "/stage/ghost"
        ∉ (processInputs cfgGhost "/stage" ["photo.jpg", "ghost"]).1 := by
  have h := c5_missing_input_skipped cfgGhost "/stage" ["photo.jpg", "ghost"] "ghost"
    (by decide) (by decide)
  exact ⟨h.1 (by decide), h.2.1 "/stage/ghost"⟩

/-- C6: in a run with parity generation not suppressed (and no parity
failure), the Parity Generator's targets are exactly the sorted-by-name
entries that do not end in `.par2`, joined to the staging directory — one
invocation per such entry, in sorted order, and never a `.par2` entry;
with `--no-par2` there are no Parity Generator invocations at all.  For a
real listing (duplicate-free, non-absolute names) the target list is
duplicate-free: each entry is treated exactly once. -/
theorem c6_parity_selection (cfg : Cfg) (tempDir : String) (entries : List String)
    (hpar : ∀ p, cfg.parFail p = false) :
    parchiveTargets (parityStep cfg false tempDir entries).1
        = ((sortStrings entries).filter (fun f => !(endsStr f ".par2"))).map (joinPath tempDir)
    ∧ parchiveTargets (parityStep cfg true tempDir entries).1 = []
    ∧ (entries.Nodup → (∀ f ∈ entries, ¬ f.data.head? = some '/') →
        (parchiveTargets (parityStep cfg false tempDir entries).1).Nodup) := by
  have hmain : parchiveTargets (parityStep cfg false tempDir entries).1
      = ((sortStrings entries).filter (fun f => !(endsStr f ".par2"))).map (joinPath tempDir) := by
    rw [parityStep, parityLoop_targets_false tempDir hpar]
    congr 1
    refine List.filter_congr ?_
    intro f _
    rw [endsStr_joinPath]
  refine ⟨hmain, parityLoop_targets_true tempDir _, ?_⟩
  intro hnd hslash
  rw [hmain]
  have hsorted : (sortStrings entries).Nodup :=
    (List.Perm.nodup_iff (List.perm_insertionSort _ entries)).mpr hnd
  refine List.Nodup.map_on ?_ (hsorted.filter _)
  intro x hx y hy hxy
  have hx2 : x ∈ entries :=
    (List.mem_insertionSort _).mp (List.mem_of_mem_filter hx)
  have hy2 : y ∈ entries :=
    (List.mem_insertionSort _).mp (List.mem_of_mem_filter hy)
  exact joinPath_inj tempDir x y (hslash x hx2) (hslash y hy2) hxy

/-- Witness for C6 at concrete inputs: entries `b.par2` and `a` yield one
parity invocation (for `a`, joined to the staging directory) when enabled,
and none with `--no-par2`. -/
theorem c6_parity_selection_witness :
    parchiveTargets (parityStep cfgAll false "/t" ["b.par2", "a"]).1 = ["/t/a"]
    ∧ parchiveTargets (parityStep cfgAll true "/t" ["b.par2", "a"]).1 = [] := by
  have h := c6_parity_selection cfgAll "/t" ["b.par2", "a"] (fun _ => rfl)
  refine ⟨?_, h.2.1⟩
  rw [h.1]
  decide

/-- C8: graft construction raises the fatal naming-collision error — with
no external tool invoked — whenever two entries escape to the same name;
and with pairwise-distinct escaped names it builds exactly one `name=path`
graft argument per entry, the ISO tool is invoked with them, and no
collision error can be raised (any failure is an external tool's). -/
theorem c8_graft_collision (cfg : Cfg) (dir out vol : String) (entries : List String) :
    (¬ (entries.map escape_graft).Nodup →
      (generate_iso cfg dir out vol entries).1 = []
      ∧ ∃ n, (generate_iso cfg dir out vol entries).2
          = some ("AssertionError: Naming collision: " ++ n))
    ∧ ((entries.map escape_graft).Nodup →
      buildGrafts (cfg.abs dir) entries
          = Except.ok (entries.map fun f =>
              escape_graft f ++ "=" ++ escape_graft (joinPath (cfg.abs dir) f))
      ∧ (∃ rest, (generate_iso cfg dir out vol entries).1
          = Event.call (["genisoimage"] ++ GENISOFS_OPTS
              ++ ["-volid", vol, "-o", out, "-graft-points"]
              ++ entries.map (fun f =>
                  escape_graft f ++ "=" ++ escape_graft (joinPath (cfg.abs dir) f))) none :: rest)
      ∧ ∀ n, (generate_iso cfg dir out vol entries).2
          ≠ some ("AssertionError: Naming collision: " ++ n)) := by
  constructor
  · intro hcol
    obtain ⟨n, hn⟩ := graftLoop_err (cfg.abs dir) entries [] (Or.inl hcol)
    have hgen : generate_iso cfg dir out vol entries
        = ([], some ("AssertionError: Naming collision: " ++ n)) := by
      simp only [generate_iso, buildGrafts]
      rw [hn]
    rw [hgen]
    exact ⟨rfl, n, rfl⟩
  · intro hnd
    have hok : buildGrafts (cfg.abs dir) entries
        = Except.ok (entries.map fun f =>
            escape_graft f ++ "=" ++ escape_graft (joinPath (cfg.abs dir) f)) :=
      graftLoop_ok (cfg.abs dir) entries [] hnd (by intro f _ hmem; simp at hmem)
    have hgen : generate_iso cfg dir out vol entries
        = runSeq (callRun cfg (["genisoimage"] ++ GENISOFS_OPTS
            ++ ["-volid", vol, "-o", out, "-graft-points"]
            ++ entries.map (fun f =>
                escape_graft f ++ "=" ++ escape_graft (joinPath (cfg.abs dir) f))) none)
          (callRun cfg ["dvdisaster", "-c", "-x", toString cfg.cores,
            "-mRS02", "-n", "CD", "-i", out] none) := by
      simp only [generate_iso, buildGrafts] at hok ⊢
      rw [hok]
    have hsome : ∀ argv cwd, cfg.callFail argv cwd = true →
        (callRun cfg argv cwd).2 = some "CalledProcessError" := by
      intro a c h
      simp [callRun, h]
    have hnone : ∀ argv cwd, cfg.callFail argv cwd = false →
        (callRun cfg argv cwd).2 = none := by
      intro a c h
      simp [callRun, h]
    refine ⟨hok, ?_, ?_⟩
    · rw [hgen]
      cases hfail : cfg.callFail (["genisoimage"] ++ GENISOFS_OPTS
          ++ ["-volid", vol, "-o", out, "-graft-points"]
          ++ entries.map (fun f =>
              escape_graft f ++ "=" ++ escape_graft (joinPath (cfg.abs dir) f))) none with
      | true =>
        refine ⟨[], ?_⟩
        rw [runSeq_of_some _ (hsome _ _ hfail)]
        rfl
      | false =>
        refine ⟨(callRun cfg ["dvdisaster", "-c", "-x", toString cfg.cores,
            "-mRS02", "-n", "CD", "-i", out] none).1, ?_⟩
        rw [runSeq_fst_of_none (hnone _ _ hfail)]
        rfl
    · intro n hcontra
      rw [hgen] at hcontra
      cases hfail : cfg.callFail (["genisoimage"] ++ GENISOFS_OPTS
          ++ ["-volid", vol, "-o", out, "-graft-points"]
          ++ entries.map (fun f =>
              escape_graft f ++ "=" ++ escape_graft (joinPath (cfg.abs dir) f))) none with
      | true =>
        rw [runSeq_of_some _ (hsome _ _ hfail)] at hcontra
        exact collision_msg_ne n (by simpa using hcontra)
      | false =>
        rw [runSeq_snd_of_none (hnone _ _ hfail)] at hcontra
        cases hfail2 : cfg.callFail ["dvdisaster", "-c", "-x", toString cfg.cores,
            "-mRS02", "-n", "CD", "-i", out] none with
        | true =>
          rw [hsome _ _ hfail2] at hcontra
          exact collision_msg_ne n (by simpa using hcontra)
        | false =>
          rw [hnone _ _ hfail2] at hcontra
          cases hcontra

/-- Witness for C8 at concrete inputs: duplicate entries collide with an
empty trace; distinct entries produce the `genisoimage` invocation with one
graft per entry. -/
theorem c8_graft_collision_witness :
    ((generate_iso cfgAll "/stage" "/out.iso" "VOL" ["a", "a"]).1 = []
      ∧ ∃ n, (generate_iso cfgAll "/stage" "/out.iso" "VOL" ["a", "a"]).2
          = some ("AssertionError: Naming collision: " ++ n))
    ∧ ∃ rest, (generate_iso cfgAll "/stage" "/out.iso" "VOL" ["a", "b"]).1
        = Event.call (["genisoimage"] ++ GENISOFS_OPTS
            ++ ["-volid", "VOL", "-o", "/out.iso", "-graft-points"]
            ++ ["a", "b"].map (fun f =>
                escape_graft f ++ "=" ++ escape_graft (joinPath (cfgAll.abs "/stage") f)))
            none :: rest :=
  ⟨(c8_graft_collision cfgAll "/stage" "/out.iso" "VOL" ["a", "a"]).1 (by decide),
   ((c8_graft_collision cfgAll "/stage" "/out.iso" "VOL" ["a", "b"]).2 (by decide)).2.1⟩

end BalloonCd
